import Mathlib

/-!
Verification of the Veteran Club bot engagement economy (src/bot.py).

The embedding follows the source closely:
* `VeteranData` is the per-participant record (`class VeteranData`); its
  numeric fields keep their Python types (ints as `Int`, floats as `ℚ`).
* Calendar dates are ISO-8601 strings in the source, compared only for
  equality and shifted by whole days; they are embedded as day numbers
  (`Int`), with the empty-string sentinel becoming `Option.none`.
* `BotConfig` holds the configuration keys the modelled operations read,
  with the defaults from `VeteranBot.__init__`.
* Stateful handlers become functions from state to state; the in-memory
  participant dict `self.veterans` (insertion-ordered) becomes an
  association list `VetMap`.
-/

/-- Configuration dictionary (`VeteranBot.__init__` defaults), restricted to
the keys read by the modelled operations. -/
structure BotConfig where
  water_cost : Int
  plant_max_water : Int
  water_decrease_interval_minutes : Int
  water_decrease_amount : Int
  xp_per_message : Int
  coins_per_message : Int
  message_cooldown_seconds : Int
  max_coins_send_per_day : Int
  daily_base_coins : Int
  daily_base_xp : Int
  daily_streak_bonus_coins : Int
  daily_streak_bonus_xp : Int
  daily_streak_cap : Int
  daily_min_messages : Int
deriving DecidableEq

/-- The default configuration values from `VeteranBot.__init__`. -/
def defaultConfig : BotConfig where
  water_cost := 10
  plant_max_water := 100
  water_decrease_interval_minutes := 60
  water_decrease_amount := 1
  xp_per_message := 5
  coins_per_message := 2
  message_cooldown_seconds := 60
  max_coins_send_per_day := 100
  daily_base_coins := 10
  daily_base_xp := 5
  daily_streak_bonus_coins := 2
  daily_streak_bonus_xp := 1
  daily_streak_cap := 7
  daily_min_messages := 10

/-- Per-participant record (`class VeteranData`).  Python ints are `Int`,
floats are `ℚ`, ISO date strings are day numbers with `none` for `""`. -/
structure VeteranData where
  coins : Int
  xp : Int
  plant_start : ℚ
  water_level : ℚ
  last_message_time : ℚ
  coins_sent_today : Int
  last_coins_reset : Int
  last_daily_claim : Option Int
  daily_streak : Int
  last_lb_refresh : Option Int
  messages_today : Int
  last_message_day_local : Option Int
deriving DecidableEq

/-- `VeteranData.__init__` applied to an empty data dict: every field takes
its default (`now` is `now_ts()`, `today` is `date.today()`). -/
def VeteranData.new (cfg : BotConfig) (now : ℚ) (today : Int) : VeteranData where
  coins := 0
  xp := 0
  plant_start := now
  water_level := (cfg.plant_max_water : ℚ)
  last_message_time := 0
  coins_sent_today := 0
  last_coins_reset := today
  last_daily_claim := none
  daily_streak := 0
  last_lb_refresh := none
  messages_today := 0
  last_message_day_local := none

/-- `VeteranData.add_xp_coins`. -/
def VeteranData.add_xp_coins (v : VeteranData) (xp_amount coin_amount : Int) : VeteranData :=
  { v with xp := v.xp + xp_amount, coins := v.coins + coin_amount }

/-- `VeteranData.reset_daily_limit`: zero the daily send counter when the
stored marker is not today. -/
def VeteranData.reset_daily_limit (today : Int) (v : VeteranData) : VeteranData :=
  if v.last_coins_reset ≠ today then
    { v with coins_sent_today := 0, last_coins_reset := today }
  else v

/-- `VeteranData.can_send`: normalizes the daily marker (a mutation that
persists in the source), then checks amount, balance and the daily cap.
Returns the flag together with the updated record. -/
def VeteranData.can_send (cfg : BotConfig) (today : Int) (v : VeteranData) (amount : Int) :
    Bool × VeteranData :=
  let v' := v.reset_daily_limit today
  (decide (0 < amount ∧ amount ≤ v'.coins ∧
    v'.coins_sent_today + amount ≤ cfg.max_coins_send_per_day), v')

/-- `VeteranData.record_send`: normalizes the daily marker, then debits the
balance and bumps the daily counter. -/
def VeteranData.record_send (today : Int) (amount : Int) (v : VeteranData) : VeteranData :=
  let v' := v.reset_daily_limit today
  { v' with coins_sent_today := v'.coins_sent_today + amount, coins := v'.coins - amount }

/-- `VeteranData.receive`. -/
def VeteranData.receive (amount : Int) (v : VeteranData) : VeteranData :=
  { v with coins := v.coins + amount }

/-- `VeteranData.water_plant`: if the balance covers `water_cost`, debit it
and refill `water_level` to `plant_max_water`; otherwise do nothing. -/
def VeteranData.water_plant (cfg : BotConfig) (v : VeteranData) : Bool × VeteranData :=
  if cfg.water_cost ≤ v.coins then
    (true, { v with coins := v.coins - cfg.water_cost,
                    water_level := (cfg.plant_max_water : ℚ) })
  else (false, v)

/-- `VeteranData.degrade`. -/
def VeteranData.degrade (cfg : BotConfig) (v : VeteranData) : VeteranData :=
  { v with water_level := v.water_level - (cfg.water_decrease_amount : ℚ) }

/-- `VeteranData.is_alive`. -/
def VeteranData.is_alive (v : VeteranData) : Bool :=
  decide (0 < v.water_level)

/-- C2: `water_plant` with the default config (`water_cost = 10`,
`plant_max_water = 100`) fails and has no effect at `coins = 5`, succeeds at
`coins = 15` leaving `coins = 5` and `water_level = 100`; in general it debits
exactly the cost and refills the resource when affordable, and otherwise has
no effect at all. -/
theorem water_plant_maintain_spec :
    (∀ (cfg : BotConfig) (v : VeteranData),
      v.water_plant cfg =
        if cfg.water_cost ≤ v.coins then
          (true, { v with coins := v.coins - cfg.water_cost,
                          water_level := (cfg.plant_max_water : ℚ) })
        else (false, v)) ∧
    (∀ v : VeteranData, v.coins = 5 →
      v.water_plant defaultConfig = (false, v)) ∧
    (∀ v : VeteranData, v.coins = 15 →
      v.water_plant defaultConfig =
        (true, { v with coins := 5, water_level := 100 })) := by
  refine ⟨fun cfg v => rfl, fun v h => ?_, fun v h => ?_⟩
  · simp [VeteranData.water_plant, h, defaultConfig]
  · simp [VeteranData.water_plant, h, defaultConfig]

/-- Result tag of the daily check-in (`daily_cb`). -/
inductive DailyResult where
  | alreadyClaimed
  | claimed (streak coinsGranted xpGranted : Int)
deriving DecidableEq

/-- Daily check-in handler `daily_cb` (garden view), after the role and
record-creation preamble: reject a second claim on the same date, otherwise
recompute the streak, grant base plus capped streak bonus of both coins and
xp, and stamp the claim date. -/
def daily_cb (cfg : BotConfig) (today : Int) (v : VeteranData) : DailyResult × VeteranData :=
  if v.last_daily_claim = some today then (.alreadyClaimed, v)
  else
    let yesterday := today - 1
    let streak := if v.last_daily_claim = some yesterday then v.daily_streak + 1 else 1
    let bonus_c := cfg.daily_streak_bonus_coins * min streak cfg.daily_streak_cap
    let bonus_x := cfg.daily_streak_bonus_xp * min streak cfg.daily_streak_cap
    (.claimed streak (cfg.daily_base_coins + bonus_c) (cfg.daily_base_xp + bonus_x),
     { v with coins := v.coins + (cfg.daily_base_coins + bonus_c),
              xp := v.xp + (cfg.daily_base_xp + bonus_x),
              daily_streak := streak,
              last_daily_claim := some today })

/-- The in-memory participant dict `self.veterans` (insertion ordered). -/
abbrev VetMap := List (Nat × VeteranData)

/-- Dict lookup `self.veterans.get(uid)`. -/
def findVet (uid : Nat) : VetMap → Option VeteranData
  | [] => none
  | p :: rest => if p.1 = uid then some p.2 else findVet uid rest

/-- In-place mutation of the entry stored under `uid`. -/
def updateVet (uid : Nat) (f : VeteranData → VeteranData) (m : VetMap) : VetMap :=
  m.map (fun p => if p.1 = uid then (p.1, f p.2) else p)

/-- Dict assignment `self.veterans[uid] = v` (insertion order preserved,
new keys appended). -/
def setVet (uid : Nat) (v : VeteranData) (m : VetMap) : VetMap :=
  if (findVet uid m).isSome then updateVet uid (fun _ => v) m else m ++ [(uid, v)]

/-- Result tag of `SendCoinsView.perform_transfer`. -/
inductive TransferResult where
  | invalidAmount
  | selfSend
  | notVeterans
  | limitOrFunds
  | sent
deriving DecidableEq

/-- `SendCoinsView.perform_transfer` with a recipient already selected:
reject non-positive amounts, self-sends, unknown parties and `can_send`
failures, otherwise debit the sender and credit the receiver.  The marker
normalization done inside `can_send` persists even on the rejected path,
exactly as the in-place mutation does in the source. -/
def perform_transfer (cfg : BotConfig) (today : Int) (sender_id receiver_id : Nat)
    (amount : Int) (m : VetMap) : TransferResult × VetMap :=
  if amount ≤ 0 then (.invalidAmount, m)
  else if receiver_id = sender_id then (.selfSend, m)
  else
    match findVet sender_id m, findVet receiver_id m with
    | some sender, some receiver =>
      if (sender.can_send cfg today amount).1 then
        (.sent, updateVet receiver_id (fun _ => receiver.receive amount)
          (updateVet sender_id
            (fun _ => (sender.can_send cfg today amount).2.record_send today amount) m))
      else (.limitOrFunds, updateVet sender_id (fun _ => (sender.can_send cfg today amount).2) m)
    | _, _ => (.notVeterans, m)

/-- C4: a second daily check-in on the same date returns `alreadyClaimed`
and leaves the whole record (coins, xp, streak) unchanged; a first claim on
a date sets the streak to `previous + 1` when the last claim was exactly
yesterday and to `1` otherwise, and grants `base + bonus * min(streak, cap)`
of both coins and xp. -/
theorem daily_claim_spec (cfg : BotConfig) (today : Int) (v : VeteranData) :
    (daily_cb cfg today (daily_cb cfg today v).2 =
      (.alreadyClaimed, (daily_cb cfg today v).2)) ∧
    (v.last_daily_claim ≠ some today →
      daily_cb cfg today v =
        (let streak := if v.last_daily_claim = some (today - 1) then v.daily_streak + 1 else 1
         let g_c := cfg.daily_base_coins +
           cfg.daily_streak_bonus_coins * min streak cfg.daily_streak_cap
         let g_x := cfg.daily_base_xp +
           cfg.daily_streak_bonus_xp * min streak cfg.daily_streak_cap
         (.claimed streak g_c g_x,
          { v with coins := v.coins + g_c, xp := v.xp + g_x,
                   daily_streak := streak, last_daily_claim := some today }))) := by
  constructor
  · by_cases h : v.last_daily_claim = some today
    · simp [daily_cb, h]
    · simp [daily_cb, h]
  · intro h
    simp [daily_cb, h]

/-- Concrete participant used to witness `daily_claim_spec`. -/
def vDaily : VeteranData where
  coins := 100
  xp := 200
  plant_start := 0
  water_level := 50
  last_message_time := 0
  coins_sent_today := 0
  last_coins_reset := 0
  last_daily_claim := some 9
  daily_streak := 2
  last_lb_refresh := none
  messages_today := 0
  last_message_day_local := none

/-- Witness for `daily_claim_spec`: claim on day 10 after a claim on day 9
with streak 2 grants `10 + 2*3` coins and `5 + 1*3` xp and bumps the streak
to 3. -/
theorem daily_claim_spec_witness :
    daily_cb defaultConfig 10 vDaily =
      (.claimed 3 16 8,
       { vDaily with coins := 116, xp := 208, daily_streak := 3,
                     last_daily_claim := some 10 }) := by
  have h := (daily_claim_spec defaultConfig 10 vDaily).2 (by decide)
  simpa [vDaily, defaultConfig] using h

/-- Invariant of a single participant record: non-negative balance and
non-negative streak (the streak bound is needed because the claim bonus is
computed from the streak). -/
def VetInv (v : VeteranData) : Prop := 0 ≤ v.coins ∧ 0 ≤ v.daily_streak

/-- Invariant of the participant map. -/
def MapInv (m : VetMap) : Prop := ∀ p ∈ m, VetInv p.2

/-- Executable check that every stored balance is non-negative. -/
def coinsOk (m : VetMap) : Bool := m.all fun p => decide (0 ≤ p.2.coins)

/-- Executable check of `MapInv`. -/
def vetsOk (m : VetMap) : Bool :=
  m.all fun p => decide (0 ≤ p.2.coins ∧ 0 ≤ p.2.daily_streak)

theorem vetsOk_iff_mapInv (m : VetMap) : vetsOk m = true ↔ MapInv m := by
  simp [vetsOk, MapInv, VetInv, List.all_eq_true]

theorem coinsOk_of_mapInv (m : VetMap) (h : MapInv m) : coinsOk m = true := by
  simp only [coinsOk, List.all_eq_true, decide_eq_true_iff]
  exact fun p hp => (h p hp).1

theorem reset_daily_limit_coins (today : Int) (v : VeteranData) :
    (v.reset_daily_limit today).coins = v.coins := by
  unfold VeteranData.reset_daily_limit; split <;> rfl

theorem reset_daily_limit_streak (today : Int) (v : VeteranData) :
    (v.reset_daily_limit today).daily_streak = v.daily_streak := by
  unfold VeteranData.reset_daily_limit; split <;> rfl

theorem vetInv_reset (today : Int) (v : VeteranData) (h : VetInv v) :
    VetInv (v.reset_daily_limit today) := by
  unfold VetInv
  rw [reset_daily_limit_coins, reset_daily_limit_streak]
  exact h

theorem vetInv_new (cfg : BotConfig) (now : ℚ) (today : Int) :
    VetInv (VeteranData.new cfg now today) := by
  constructor <;> simp [VeteranData.new]

theorem receive_coins (amt : Int) (v : VeteranData) :
    (v.receive amt).coins = v.coins + amt := rfl

theorem record_send_coins (today amt : Int) (v : VeteranData) :
    (v.record_send today amt).coins = v.coins - amt := by
  simp [VeteranData.record_send, reset_daily_limit_coins]

theorem record_send_streak (today amt : Int) (v : VeteranData) :
    (v.record_send today amt).daily_streak = v.daily_streak := by
  simp [VeteranData.record_send, reset_daily_limit_streak]

theorem can_send_snd (cfg : BotConfig) (today amt : Int) (v : VeteranData) :
    (v.can_send cfg today amt).2 = v.reset_daily_limit today := rfl

theorem can_send_true_iff (cfg : BotConfig) (today amt : Int) (v : VeteranData) :
    (v.can_send cfg today amt).1 = true ↔
      0 < amt ∧ amt ≤ v.coins ∧
        (v.reset_daily_limit today).coins_sent_today + amt ≤ cfg.max_coins_send_per_day := by
  simp [VeteranData.can_send, reset_daily_limit_coins]

theorem vetInv_water (cfg : BotConfig) (v : VeteranData) (h : VetInv v) :
    VetInv (v.water_plant cfg).2 := by
  unfold VeteranData.water_plant
  split
  case isTrue hc => exact ⟨show (0:Int) ≤ v.coins - cfg.water_cost by omega, h.2⟩
  case isFalse hc => exact h

theorem vetInv_daily (cfg : BotConfig) (today : Int) (v : VeteranData)
    (hb : 0 ≤ cfg.daily_base_coins) (hs : 0 ≤ cfg.daily_streak_bonus_coins)
    (hc : 0 ≤ cfg.daily_streak_cap) (h : VetInv v) :
    VetInv (daily_cb cfg today v).2 := by
  unfold daily_cb
  split
  · exact h
  · have hd : (0:Int) ≤ v.daily_streak := h.2
    have hstreak : (0:Int) ≤ if v.last_daily_claim = some (today - 1)
        then v.daily_streak + 1 else 1 := by
      split <;> omega
    refine ⟨?_, hstreak⟩
    have hmin : (0:Int) ≤ min (if v.last_daily_claim = some (today - 1)
        then v.daily_streak + 1 else 1) cfg.daily_streak_cap :=
      le_min hstreak hc
    have hmul := mul_nonneg hs hmin
    have h1 := h.1
    show (0:Int) ≤ v.coins + (cfg.daily_base_coins +
      cfg.daily_streak_bonus_coins * min (if v.last_daily_claim = some (today - 1)
        then v.daily_streak + 1 else 1) cfg.daily_streak_cap)
    linarith

theorem findVet_inv (uid : Nat) (m : VetMap) (v : VeteranData)
    (h : MapInv m) (hf : findVet uid m = some v) : VetInv v := by
  induction m with
  | nil => simp [findVet] at hf
  | cons p rest ih =>
    rw [findVet] at hf
    by_cases hp : p.1 = uid
    · simp [hp] at hf
      exact hf ▸ h p (List.mem_cons_self p rest)
    · simp [hp] at hf
      exact ih (fun q hq => h q (List.mem_cons_of_mem p hq)) hf

theorem mapInv_updateVet (uid : Nat) (f : VeteranData → VeteranData) (m : VetMap)
    (h : MapInv m) (hf : ∀ v, VetInv v → VetInv (f v)) :
    MapInv (updateVet uid f m) := by
  intro p hp
  simp only [updateVet, List.mem_map] at hp
  obtain ⟨q, hq, hpq⟩ := hp
  by_cases hcase : q.1 = uid
  · simp [hcase] at hpq
    rw [← hpq]
    exact hf q.2 (h q hq)
  · simp [hcase] at hpq
    rw [← hpq]
    exact h q hq

theorem mapInv_setVet (uid : Nat) (v : VeteranData) (m : VetMap)
    (h : MapInv m) (hv : VetInv v) : MapInv (setVet uid v m) := by
  unfold setVet
  split
  · exact mapInv_updateVet uid _ m h fun _ _ => hv
  · intro p hp
    rcases List.mem_append.1 hp with h1 | h2
    · exact h p h1
    · simp at h2
      rw [h2]
      exact hv

theorem mapInv_transfer (cfg : BotConfig) (today : Int) (s r : Nat) (amt : Int)
    (m : VetMap) (h : MapInv m) :
    MapInv (perform_transfer cfg today s r amt m).2 := by
  unfold perform_transfer
  split
  · exact h
  split
  · exact h
  split
  case _ sender receiver hfs hfr =>
    have hsend : VetInv sender := findVet_inv s m sender h hfs
    have hrecv : VetInv receiver := findVet_inv r m receiver h hfr
    split
    case isTrue hok =>
      rw [can_send_true_iff] at hok
      obtain ⟨hpos, hle, _⟩ := hok
      show MapInv (updateVet r (fun _ => receiver.receive amt)
        (updateVet s (fun _ => (sender.can_send cfg today amt).2.record_send today amt) m))
      apply mapInv_updateVet
      · apply mapInv_updateVet _ _ _ h
        intro w _
        refine ⟨?_, ?_⟩
        · rw [record_send_coins, can_send_snd, reset_daily_limit_coins]
          omega
        · rw [record_send_streak, can_send_snd, reset_daily_limit_streak]
          exact hsend.2
      · intro w _
        have h1 := hrecv.1
        exact ⟨show (0:Int) ≤ receiver.coins + amt by omega, hrecv.2⟩
    case isFalse hok =>
      show MapInv (updateVet s (fun _ => (sender.can_send cfg today amt).2) m)
      apply mapInv_updateVet _ _ _ h
      intro w _
      rw [can_send_snd]
      exact vetInv_reset today sender hsend
  all_goals exact h

/-- One externally triggered economy operation, tagged with the clock values
the corresponding handler reads (`now_ts()` and `date.today()`). -/
inductive EconOp where
  | maintain (uid : Nat) (now : ℚ) (today : Int)
  | transfer (sender receiver : Nat) (amount : Int) (today : Int)
  | claimDaily (uid : Nat) (now : ℚ) (today : Int)
deriving DecidableEq

/-- Dispatch of one operation against the participant map, following the
button callbacks: `water_cb` and `daily_cb` create a fresh record for an
unknown user before acting, `perform_transfer` requires both parties. -/
def applyOp (cfg : BotConfig) (m : VetMap) : EconOp → VetMap
  | .maintain uid now today =>
    let v := (findVet uid m).getD (VeteranData.new cfg now today)
    setVet uid (v.water_plant cfg).2 m
  | .transfer s r amt today => (perform_transfer cfg today s r amt m).2
  | .claimDaily uid now today =>
    let v := (findVet uid m).getD (VeteranData.new cfg now today)
    setVet uid (daily_cb cfg today v).2 m

/-- A whole sequence of economy operations. -/
def applyOps (cfg : BotConfig) (ops : List EconOp) (m : VetMap) : VetMap :=
  ops.foldl (applyOp cfg) m

theorem mapInv_applyOp (cfg : BotConfig) (m : VetMap) (op : EconOp)
    (hb : 0 ≤ cfg.daily_base_coins) (hs : 0 ≤ cfg.daily_streak_bonus_coins)
    (hc : 0 ≤ cfg.daily_streak_cap) (h : MapInv m) :
    MapInv (applyOp cfg m op) := by
  cases op with
  | maintain uid now today =>
    apply mapInv_setVet _ _ _ h
    apply vetInv_water
    cases hf : findVet uid m with
    | none => simpa [hf] using vetInv_new cfg now today
    | some v => simpa [hf] using findVet_inv uid m v h hf
  | transfer s r amt today =>
    exact mapInv_transfer cfg today s r amt m h
  | claimDaily uid now today =>
    apply mapInv_setVet _ _ _ h
    apply vetInv_daily _ _ _ hb hs hc
    cases hf : findVet uid m with
    | none => simpa [hf] using vetInv_new cfg now today
    | some v => simpa [hf] using findVet_inv uid m v h hf

theorem mapInv_applyOps (cfg : BotConfig) (ops : List EconOp) (m : VetMap)
    (hb : 0 ≤ cfg.daily_base_coins) (hs : 0 ≤ cfg.daily_streak_bonus_coins)
    (hc : 0 ≤ cfg.daily_streak_cap) (h : MapInv m) :
    MapInv (applyOps cfg ops m) := by
  induction ops generalizing m with
  | nil => exact h
  | cons op rest ih =>
    exact ih (applyOp cfg m op) (mapInv_applyOp cfg m op hb hs hc h)

/-- C1: starting from any participant map whose balances and streaks are
non-negative, and with non-negative daily-claim reward configuration, any
sequence of maintain / transfer / daily-claim operations keeps every
participant balance non-negative (hence it is non-negative after each
prefix of the sequence as well, the prefix being itself such a sequence). -/
theorem currency_never_negative (cfg : BotConfig) (ops : List EconOp) (m : VetMap)
    (hb : 0 ≤ cfg.daily_base_coins) (hs : 0 ≤ cfg.daily_streak_bonus_coins)
    (hc : 0 ≤ cfg.daily_streak_cap) (hm : vetsOk m = true) :
    coinsOk (applyOps cfg ops m) = true :=
  coinsOk_of_mapInv _
    (mapInv_applyOps cfg ops m hb hs hc ((vetsOk_iff_mapInv m).1 hm))

/-- Concrete participant used in several witnesses. -/
def vPoor : VeteranData where
  coins := 5
  xp := 0
  plant_start := 0
  water_level := 40
  last_message_time := 0
  coins_sent_today := 0
  last_coins_reset := 10
  last_daily_claim := none
  daily_streak := 0
  last_lb_refresh := none
  messages_today := 0
  last_message_day_local := none

/-- Concrete participant used in several witnesses. -/
def vRich : VeteranData where
  coins := 120
  xp := 300
  plant_start := 0
  water_level := 70
  last_message_time := 0
  coins_sent_today := 0
  last_coins_reset := 10
  last_daily_claim := some 9
  daily_streak := 4
  last_lb_refresh := none
  messages_today := 0
  last_message_day_local := none

/-- Witness for `currency_never_negative`: a concrete run of a claim, a
watering, and a transfer over two participants keeps all balances at or
above zero. -/
theorem currency_never_negative_witness :
    coinsOk (applyOps defaultConfig
      [.claimDaily 1 0 10, .maintain 2 0 10, .transfer 2 1 30 10]
      [(1, vPoor), (2, vRich)]) = true :=
  currency_never_negative defaultConfig
    [.claimDaily 1 0 10, .maintain 2 0 10, .transfer 2 1 30 10]
    [(1, vPoor), (2, vRich)]
    (by decide) (by decide) (by decide) (by decide)

theorem findVet_updateVet_self (uid : Nat) (f : VeteranData → VeteranData) (m : VetMap) :
    findVet uid (updateVet uid f m) = (findVet uid m).map f := by
  induction m with
  | nil => rfl
  | cons p rest ih =>
    simp only [updateVet, List.map_cons]
    by_cases hp : p.1 = uid
    · rw [if_pos hp]
      show (if p.1 = uid then some (f p.2) else findVet uid (updateVet uid f rest)) =
        ((if p.1 = uid then some p.2 else findVet uid rest)).map f
      rw [if_pos hp, if_pos hp]
      rfl
    · rw [if_neg hp]
      show (if p.1 = uid then some p.2 else findVet uid (updateVet uid f rest)) =
        ((if p.1 = uid then some p.2 else findVet uid rest)).map f
      rw [if_neg hp, if_neg hp]
      exact ih

theorem findVet_updateVet_ne (uid uid2 : Nat) (f : VeteranData → VeteranData)
    (m : VetMap) (h : uid ≠ uid2) :
    findVet uid (updateVet uid2 f m) = findVet uid m := by
  induction m with
  | nil => rfl
  | cons p rest ih =>
    simp only [updateVet, List.map_cons]
    by_cases hp : p.1 = uid2
    · have huid : ¬ p.1 = uid := by rw [hp]; exact fun hh => h hh.symm
      rw [if_pos hp]
      show (if p.1 = uid then some (f p.2) else findVet uid (updateVet uid2 f rest)) =
        (if p.1 = uid then some p.2 else findVet uid rest)
      rw [if_neg huid, if_neg huid, ih]
    · rw [if_neg hp]
      show (if p.1 = uid then some p.2 else findVet uid (updateVet uid2 f rest)) =
        (if p.1 = uid then some p.2 else findVet uid rest)
      rw [ih]

theorem perform_transfer_sent (cfg : BotConfig) (today : Int) (s r : Nat) (amt : Int)
    (m tm : VetMap) (h : perform_transfer cfg today s r amt m = (.sent, tm)) :
    0 < amt ∧ r ≠ s ∧ ∃ sender receiver,
      findVet s m = some sender ∧ findVet r m = some receiver ∧
      tm = updateVet r (fun _ => receiver.receive amt)
        (updateVet s (fun _ => (sender.can_send cfg today amt).2.record_send today amt) m) := by
  unfold perform_transfer at h
  split at h
  · simp at h
  split at h
  · simp at h
  split at h
  case _ sender receiver hfs hfr =>
    split at h
    case isTrue hok =>
      simp only [Prod.mk.injEq] at h
      exact ⟨by omega, by assumption, sender, receiver, hfs, hfr, h.2.symm⟩
    case isFalse hok =>
      simp at h
  all_goals simp at h

/-- C8: a transfer from `a` to `b` immediately followed by the reverse
transfer of the same amount, both accepted, restores both balances exactly
(daily send counters aside). -/
theorem transfer_roundtrip (cfg : BotConfig) (d1 d2 : Int) (a b : Nat) (amt : Int)
    (m m1 m2 : VetMap)
    (h1 : perform_transfer cfg d1 a b amt m = (.sent, m1))
    (h2 : perform_transfer cfg d2 b a amt m1 = (.sent, m2)) :
    (findVet a m2).map VeteranData.coins = (findVet a m).map VeteranData.coins ∧
    (findVet b m2).map VeteranData.coins = (findVet b m).map VeteranData.coins := by
  obtain ⟨hpos1, hba, sA, rB, hfa, hfb, hm1⟩ := perform_transfer_sent cfg d1 a b amt m m1 h1
  obtain ⟨hpos2, hab, sB, rA, hfb1, hfa1, hm2⟩ := perform_transfer_sent cfg d2 b a amt m1 m2 h2
  have ha1 : findVet a m1 = some ((sA.can_send cfg d1 amt).2.record_send d1 amt) := by
    rw [hm1, findVet_updateVet_ne a b _ _ hab, findVet_updateVet_self, hfa]
    rfl
  have hb1 : findVet b m1 = some (rB.receive amt) := by
    rw [hm1, findVet_updateVet_self, findVet_updateVet_ne b a _ _ hba, hfb]
    rfl
  have hsB : sB = rB.receive amt := by
    rw [hfb1] at hb1
    exact Option.some.inj hb1
  have hrA : rA = (sA.can_send cfg d1 amt).2.record_send d1 amt := by
    rw [hfa1] at ha1
    exact Option.some.inj ha1
  constructor
  · have hfind : findVet a m2 = some (rA.receive amt) := by
      rw [hm2, findVet_updateVet_self, findVet_updateVet_ne a b _ _ hab, ha1, hrA]
      rfl
    rw [hfind, hfa]
    show some ((rA.receive amt).coins) = some (sA.coins)
    congr 1
    rw [receive_coins, hrA, record_send_coins, can_send_snd, reset_daily_limit_coins]
    omega
  · have hfind : findVet b m2 = some ((sB.can_send cfg d2 amt).2.record_send d2 amt) := by
      rw [hm2, findVet_updateVet_ne b a _ _ hba, findVet_updateVet_self, hb1]
      rfl
    rw [hfind, hfb]
    show some (((sB.can_send cfg d2 amt).2.record_send d2 amt).coins) = some (rB.coins)
    congr 1
    rw [record_send_coins, can_send_snd, reset_daily_limit_coins, hsB, receive_coins]
    omega

/-- State after the witness transfer 1 → 2 of 30 coins. -/
def roundtripMid : VetMap :=
  (perform_transfer defaultConfig 10 1 2 30 [(1, vRich), (2, vPoor)]).2

/-- State after the witness transfers 1 → 2 → 1 of 30 coins. -/
def roundtripEnd : VetMap :=
  (perform_transfer defaultConfig 10 2 1 30 roundtripMid).2

/-- Witness for `transfer_roundtrip`: sending 30 coins from participant 1 to
participant 2 and straight back restores the balances 120 and 5. -/
theorem transfer_roundtrip_witness :
    (findVet 1 roundtripEnd).map VeteranData.coins =
      (findVet 1 [(1, vRich), (2, vPoor)]).map VeteranData.coins ∧
    (findVet 2 roundtripEnd).map VeteranData.coins =
      (findVet 2 [(1, vRich), (2, vPoor)]).map VeteranData.coins :=
  transfer_roundtrip defaultConfig 10 10 1 2 30
    [(1, vRich), (2, vPoor)] roundtripMid roundtripEnd (by decide) (by decide)

/-- One decay tick over the whole map (`degrade_task` body once the interval
has elapsed): degrade every record, keep the survivors, and report the owner
of every plant that died this tick (role removal event), in map order. -/
def degrade_tick (cfg : BotConfig) (m : VetMap) : VetMap × List Nat :=
  let m' := m.map fun p => (p.1, p.2.degrade cfg)
  (m'.filter fun p => p.2.is_alive,
   (m'.filter fun p => !(p.2.is_alive)).map Prod.fst)

theorem keys_nodup_eq (m : VetMap) (hnd : (m.map Prod.fst).Nodup)
    (p q : Nat × VeteranData) (hp : p ∈ m) (hq : q ∈ m) (hk : p.1 = q.1) : p = q := by
  induction m with
  | nil => cases hp
  | cons a rest ih =>
    simp only [List.map_cons, List.nodup_cons] at hnd
    rcases List.mem_cons.1 hp with hp1 | hp2 <;> rcases List.mem_cons.1 hq with hq1 | hq2
    · rw [hp1, hq1]
    · exfalso
      apply hnd.1
      have ha : a.1 = q.1 := by rw [← hp1]; exact hk
      rw [ha]
      exact List.mem_map_of_mem Prod.fst hq2
    · exfalso
      apply hnd.1
      have ha : a.1 = p.1 := by rw [← hq1]; exact hk.symm
      rw [ha]
      exact List.mem_map_of_mem Prod.fst hp2
    · exact ih hnd.2 hp2 hq2

theorem degrade_keys (cfg : BotConfig) (m : VetMap) :
    ((m.map fun p => (p.1, p.2.degrade cfg)).map Prod.fst) = m.map Prod.fst := by
  rw [List.map_map]
  rfl

/-- C3: on a decay tick, any participant whose resource drops to zero or
below is removed from the in-memory map by the end of that same tick and
gets exactly one died event; every participant still in the map after the
tick has a strictly positive resource level; and a tick never emits an event
for, nor resurrects, an id that is not in the map (so re-running the tick
logic on an already-removed participant is a no-op for it, and nobody with a
non-positive resource level survives into a second tick). -/
theorem decay_tick_removes_dead (cfg : BotConfig) (m : VetMap) (uid : Nat) (v : VeteranData)
    (hnd : (m.map Prod.fst).Nodup) (hmem : (uid, v) ∈ m)
    (hdead : ¬ 0 < (v.degrade cfg).water_level) :
    uid ∉ (degrade_tick cfg m).1.map Prod.fst ∧
    (degrade_tick cfg m).2.count uid = 1 ∧
    (∀ p ∈ (degrade_tick cfg m).1, 0 < p.2.water_level) ∧
    (∀ uid2, uid2 ∉ m.map Prod.fst →
      uid2 ∉ (degrade_tick cfg m).2 ∧ uid2 ∉ (degrade_tick cfg m).1.map Prod.fst) := by
  have hnd' : (((m.map fun p => (p.1, p.2.degrade cfg)).map Prod.fst)).Nodup := by
    rw [degrade_keys]
    exact hnd
  have hmem' : (uid, v.degrade cfg) ∈ m.map fun p => (p.1, p.2.degrade cfg) :=
    List.mem_map_of_mem _ hmem
  have hdeadb : (v.degrade cfg).is_alive = false := by
    simp [VeteranData.is_alive, hdead]
  refine ⟨?_, ?_, ?_, ?_⟩
  · intro hin
    simp only [degrade_tick, List.mem_map] at hin
    obtain ⟨q, hq, hq1⟩ := hin
    rw [List.mem_filter] at hq
    obtain ⟨hqm, halive⟩ := hq
    have hqe : q = (uid, v.degrade cfg) :=
      keys_nodup_eq _ hnd' q (uid, v.degrade cfg) hqm hmem' (by rw [hq1])
    rw [hqe] at halive
    simp only [hdeadb] at halive
    exact Bool.false_ne_true halive
  · have hsub : List.Sublist
        (((m.map fun p => (p.1, p.2.degrade cfg)).filter
          fun p => !(p.2.is_alive)).map Prod.fst)
        ((m.map fun p => (p.1, p.2.degrade cfg)).map Prod.fst) :=
      (List.filter_sublist _).map Prod.fst
    have hinev : uid ∈ ((m.map fun p => (p.1, p.2.degrade cfg)).filter
        fun p => !(p.2.is_alive)).map Prod.fst := by
      apply List.mem_map.2
      refine ⟨(uid, v.degrade cfg), ?_, rfl⟩
      apply List.mem_filter.2
      refine ⟨hmem', ?_⟩
      show (!(v.degrade cfg).is_alive) = true
      rw [hdeadb]
      rfl
    exact List.count_eq_one_of_mem (hnd'.sublist hsub) hinev
  · intro p hp
    simp only [degrade_tick] at hp
    rw [List.mem_filter] at hp
    have halive := hp.2
    simpa [VeteranData.is_alive] using halive
  · intro uid2 hout
    constructor
    · intro hin
      apply hout
      simp only [degrade_tick, List.mem_map] at hin
      obtain ⟨q, hq, hq1⟩ := hin
      have hqm := List.mem_of_mem_filter hq
      rw [← degrade_keys cfg m]
      rw [← hq1]
      exact List.mem_map_of_mem Prod.fst hqm
    · intro hin
      apply hout
      simp only [degrade_tick, List.mem_map] at hin
      obtain ⟨q, hq, hq1⟩ := hin
      have hqm := List.mem_of_mem_filter hq
      rw [← degrade_keys cfg m]
      rw [← hq1]
      exact List.mem_map_of_mem Prod.fst hqm

/-- Participant one decay step away from death, used in witnesses. -/
def vLow : VeteranData where
  coins := 0
  xp := 0
  plant_start := 0
  water_level := 1
  last_message_time := 0
  coins_sent_today := 0
  last_coins_reset := 0
  last_daily_claim := none
  daily_streak := 0
  last_lb_refresh := none
  messages_today := 0
  last_message_day_local := none

/-- Witness for `decay_tick_removes_dead`: with water level 1 and decrease
amount 1, participant 1 dies on the tick and gets exactly one died event. -/
theorem decay_tick_removes_dead_witness :
    (degrade_tick defaultConfig [(1, vLow), (2, vRich)]).2.count 1 = 1 :=
  (decay_tick_removes_dead defaultConfig [(1, vLow), (2, vRich)] 1 vLow
    (by decide) (by decide)
    (by simp [VeteranData.degrade, vLow, defaultConfig])).2.1

/-- Reward-channel message handler `on_message`, per-participant part (after
the channel, role and record-creation preamble): the xp/coin reward is
cooldown gated, then the local-day survival counter is normalized to today
and incremented unconditionally, regardless of the cooldown outcome. -/
def on_message (cfg : BotConfig) (t : ℚ) (today_local : Int) (v : VeteranData) : VeteranData :=
  let v1 := if (cfg.message_cooldown_seconds : ℚ) ≤ t - v.last_message_time then
      { v.add_xp_coins cfg.xp_per_message cfg.coins_per_message with last_message_time := t }
    else v
  let v2 := if v1.last_message_day_local ≠ some today_local then
      { v1 with last_message_day_local := some today_local, messages_today := 0 }
    else v1
  { v2 with messages_today := v2.messages_today + 1 }

/-- Concrete participant inside the message cooldown window. -/
def vMsg : VeteranData where
  coins := 0
  xp := 0
  plant_start := 0
  water_level := 50
  last_message_time := 50
  coins_sent_today := 0
  last_coins_reset := 0
  last_daily_claim := none
  daily_streak := 0
  last_lb_refresh := none
  messages_today := 3
  last_message_day_local := some 200

/-- C7, counterexample: a message inside the cooldown window is not a
complete no-op — at `t = 60` with last activity at `50` and a 60 second
cooldown, no reward is granted, yet the local-day counter still moves from
3 to 4. -/
theorem on_message_cooldown_not_noop :
    ((60 : ℚ) - vMsg.last_message_time < (defaultConfig.message_cooldown_seconds : ℚ)) ∧
    (on_message defaultConfig 60 200 vMsg).messages_today = vMsg.messages_today + 1 ∧
    on_message defaultConfig 60 200 vMsg ≠ vMsg := by
  refine ⟨by norm_num [vMsg, defaultConfig], ?_, ?_⟩
  · norm_num [on_message, vMsg, defaultConfig]
  · intro h
    have := congrArg VeteranData.messages_today h
    norm_num [on_message, vMsg, defaultConfig] at this

/-- C7, amended: under cooldown the handler grants nothing and keeps
`last_message_time`, but still normalizes the local-day marker to today and
increments the day counter; past the cooldown it additionally grants the
configured xp and coins and stamps `last_message_time := t`. -/
theorem on_message_spec (cfg : BotConfig) (t : ℚ) (today : Int) (v : VeteranData) :
    (t - v.last_message_time < (cfg.message_cooldown_seconds : ℚ) →
      ((on_message cfg t today v).coins = v.coins ∧
       (on_message cfg t today v).xp = v.xp ∧
       (on_message cfg t today v).last_message_time = v.last_message_time ∧
       (on_message cfg t today v).messages_today =
         (if v.last_message_day_local = some today then v.messages_today else 0) + 1 ∧
       (on_message cfg t today v).last_message_day_local = some today)) ∧
    ((cfg.message_cooldown_seconds : ℚ) ≤ t - v.last_message_time →
      ((on_message cfg t today v).coins = v.coins + cfg.coins_per_message ∧
       (on_message cfg t today v).xp = v.xp + cfg.xp_per_message ∧
       (on_message cfg t today v).last_message_time = t ∧
       (on_message cfg t today v).messages_today =
         (if v.last_message_day_local = some today then v.messages_today else 0) + 1 ∧
       (on_message cfg t today v).last_message_day_local = some today)) := by
  constructor
  · intro h
    have hcond : ¬ ((cfg.message_cooldown_seconds : ℚ) ≤ t - v.last_message_time) :=
      not_le.2 h
    by_cases hm : v.last_message_day_local = some today <;>
      simp [on_message, hcond, hm]
  · intro h
    by_cases hm : v.last_message_day_local = some today <;>
      simp [on_message, VeteranData.add_xp_coins, h, hm]

/-- Witness for `on_message_spec`: a message well past the cooldown grants
the configured reward and bumps the counter. -/
theorem on_message_spec_witness :
    (on_message defaultConfig 1000 200 vMsg).coins =
      vMsg.coins + defaultConfig.coins_per_message ∧
    (on_message defaultConfig 1000 200 vMsg).xp =
      vMsg.xp + defaultConfig.xp_per_message ∧
    (on_message defaultConfig 1000 200 vMsg).last_message_time = 1000 ∧
    (on_message defaultConfig 1000 200 vMsg).messages_today =
      (if vMsg.last_message_day_local = some 200 then vMsg.messages_today else 0) + 1 ∧
    (on_message defaultConfig 1000 200 vMsg).last_message_day_local = some 200 :=
  (on_message_spec defaultConfig 1000 200 vMsg).2
    (by norm_num [vMsg, defaultConfig])

/-- One removal pass of `daily_survival_task`, after its midnight-window
gate: flag every participant whose local-day marker is not yesterday or
whose counter is below `daily_min_messages`, then (when anyone is flagged)
pop every flagged id from the map.  The source keeps no record of the last
processed date. -/
def daily_survival_pass (cfg : BotConfig) (yesterday : Int) (m : VetMap) : VetMap :=
  let to_remove := (m.filter fun p =>
    decide (p.2.last_message_day_local ≠ some yesterday ∨
      p.2.messages_today < cfg.daily_min_messages)).map Prod.fst
  if to_remove.isEmpty then m
  else m.filter fun p => decide (p.1 ∉ to_remove)

/-- Participant who met the quota yesterday (15 messages on day 99). -/
def vSurv : VeteranData where
  coins := 0
  xp := 0
  plant_start := 0
  water_level := 50
  last_message_time := 0
  coins_sent_today := 0
  last_coins_reset := 0
  last_daily_claim := none
  daily_streak := 0
  last_lb_refresh := none
  messages_today := 15
  last_message_day_local := some 99

/-- C6: the survival pass is not idempotent within a local date, because the
source tracks no last-processed date (unlike `daily_warning_task`).  With
`yesterday = 99`, participant 7 met the quota (15 ≥ 10 messages on day 99)
and survives the first pass unchanged; one message sent after midnight (at
`t = 30`, day 100) resets the day counter, and a second run of the very same
pass inside the same polling window then removes the participant. -/
theorem survival_pass_not_idempotent :
    daily_survival_pass defaultConfig 99 [(7, vSurv)] = [(7, vSurv)] ∧
    daily_survival_pass defaultConfig 99
      (updateVet 7 (on_message defaultConfig 30 100)
        (daily_survival_pass defaultConfig 99 [(7, vSurv)])) = [] := by
  have h1 : daily_survival_pass defaultConfig 99 [(7, vSurv)] = [(7, vSurv)] := by
    norm_num [daily_survival_pass, vSurv, defaultConfig]
  refine ⟨h1, ?_⟩
  rw [h1]
  norm_num [daily_survival_pass, updateVet, on_message, vSurv, defaultConfig]

/-- One wakeup of the decay scheduler `degrade_task`: the first wakeup after
process start only records the current time in the task attribute; later
wakeups do nothing until a full configured interval has elapsed since the
recorded tick, and otherwise record the new tick time and run one decay
tick.  Returns the new state plus the died events of this wakeup. -/
def degrade_task_step (cfg : BotConfig) (t : ℚ) (st : Option ℚ) (m : VetMap) :
    (Option ℚ × VetMap) × List Nat :=
  match st with
  | none => ((some t, m), [])
  | some tlast =>
    if t - tlast < ((cfg.water_decrease_interval_minutes * 60 : Int) : ℚ) then
      ((some tlast, m), [])
    else ((some t, (degrade_tick cfg m).1), (degrade_tick cfg m).2)

/-- A run of decay-scheduler wakeups, threading the task-attribute state
(`none` models a fresh process, where the attribute is unset). -/
def runDegrade (cfg : BotConfig) (ts : List ℚ) (s : Option ℚ × VetMap) :
    Option ℚ × VetMap :=
  ts.foldl (fun s t => (degrade_task_step cfg t s.1 s.2).1) s

theorem runDegrade_within (cfg : BotConfig) (m : VetMap) (t0 : ℚ) (ts : List ℚ)
    (h : ∀ t ∈ ts, t - t0 < ((cfg.water_decrease_interval_minutes * 60 : Int) : ℚ)) :
    runDegrade cfg ts (some t0, m) = (some t0, m) := by
  induction ts with
  | nil => rfl
  | cons t rest ih =>
    have hstep : (degrade_task_step cfg t (some t0) m).1 = (some t0, m) := by
      simp only [degrade_task_step]
      rw [if_pos (h t (List.mem_cons_self t rest))]
    show runDegrade cfg rest (degrade_task_step cfg t (some t0) m).1 = (some t0, m)
    rw [hstep]
    exact ih fun u hu => h u (List.mem_cons_of_mem t hu)

/-- C10: starting from a fresh process (task attribute unset), the first
scheduler wakeup at `t0` only records `t0` and decays nobody, and every
further wakeup strictly less than one configured interval after `t0` leaves
the whole participant map untouched — a restart always resets the decay
clock for every participant. -/
theorem degrade_startup_no_decay (cfg : BotConfig) (m : VetMap) (t0 : ℚ) (ts : List ℚ)
    (h : ∀ t ∈ ts, t - t0 < ((cfg.water_decrease_interval_minutes * 60 : Int) : ℚ)) :
    runDegrade cfg (t0 :: ts) (none, m) = (some t0, m) := by
  show runDegrade cfg ts (degrade_task_step cfg t0 none m).1 = (some t0, m)
  exact runDegrade_within cfg m t0 ts h

/-- Witness for `degrade_startup_no_decay`: wakeups at 100 and 3599 seconds
after a startup at time 0 (hourly decay interval, 3600 s) change nothing. -/
theorem degrade_startup_no_decay_witness :
    runDegrade defaultConfig [0, 100, 3599] (none, [(1, vLow)]) = (some 0, [(1, vLow)]) :=
  degrade_startup_no_decay defaultConfig [(1, vLow)] 0 [100, 3599]
    (by
      intro t ht
      simp only [List.mem_cons, List.not_mem_nil, or_false] at ht
      rcases ht with rfl | rfl <;> norm_num [defaultConfig])

/-- `VeteranData.age_days` at a fixed clock reading `now`. -/
def age_days (now : ℚ) (v : VeteranData) : ℚ := (now - v.plant_start) / 86400

/-- The comparator realized by `build_leaderboard_embed`, which sorts the
dict items with the key tuple `(-xp, -age_days)`: descending xp first, then
descending age; Python `sorted` is a stable merge sort for this ordering. -/
def lbLe (now : ℚ) (a b : Nat × VeteranData) : Bool :=
  decide (b.2.xp < a.2.xp ∨ (a.2.xp = b.2.xp ∧ age_days now b.2 ≤ age_days now a.2))

/-- The full ranking from `build_leaderboard_embed` (the embed then keeps
the first five entries). -/
def rank_veterans (now : ℚ) (m : VetMap) : VetMap :=
  List.mergeSort m (lbLe now)

theorem lbLe_total (now : ℚ) (a b : Nat × VeteranData) :
    lbLe now a b || lbLe now b a := by
  simp only [lbLe, Bool.or_eq_true, decide_eq_true_iff]
  rcases lt_trichotomy a.2.xp b.2.xp with h | h | h
  · right
    left
    exact h
  · rcases le_total (age_days now a.2) (age_days now b.2) with h2 | h2
    · right
      right
      exact ⟨h.symm, h2⟩
    · left
      right
      exact ⟨h, h2⟩
  · left
    left
    exact h

theorem lbLe_trans (now : ℚ) (a b c : Nat × VeteranData) :
    lbLe now a b → lbLe now b c → lbLe now a c := by
  simp only [lbLe, decide_eq_true_iff]
  intro hab hbc
  rcases hab with h1 | ⟨h1, h2⟩ <;> rcases hbc with h3 | ⟨h3, h4⟩
  · left
    exact h3.trans h1
  · left
    rw [h3] at h1
    exact h1
  · left
    rw [h1]
    exact h3
  · right
    exact ⟨h1.trans h3, h4.trans h2⟩

/-- Participant A (50 xp), plant started at time 0. -/
def vLbA : VeteranData where
  coins := 0
  xp := 50
  plant_start := 0
  water_level := 50
  last_message_time := 0
  coins_sent_today := 0
  last_coins_reset := 0
  last_daily_claim := none
  daily_streak := 0
  last_lb_refresh := none
  messages_today := 0
  last_message_day_local := none

/-- Participant B (80 xp), plant started at time 43200 (younger plant). -/
def vLbB : VeteranData :=
  { vLbA with xp := 80, plant_start := 43200 }

/-- Participant C (80 xp), plant started at time 0 (older plant). -/
def vLbC : VeteranData :=
  { vLbA with xp := 80, plant_start := 0 }

/-- Participant C with the same plant age as B, for the full-tie case. -/
def vLbC2 : VeteranData :=
  { vLbA with xp := 80, plant_start := 43200 }

/-- C5, counterexample: the ranking does not break xp ties by ascending
identifier.  With A(id 1, 50 xp), B(id 2, 80 xp, younger plant) and
C(id 3, 80 xp, older plant) at clock 86400, the code orders C before B
(descending age), producing ids [3, 2, 1] instead of the claimed [2, 3, 1]
([B, C, A]). -/
theorem leaderboard_tiebreak_cex :
    (rank_veterans 86400 [(1, vLbA), (2, vLbB), (3, vLbC)]).map Prod.fst = [3, 2, 1] ∧
    (rank_veterans 86400 [(1, vLbA), (2, vLbB), (3, vLbC)]).map Prod.fst ≠ [2, 3, 1] := by
  have h : (rank_veterans 86400 [(1, vLbA), (2, vLbB), (3, vLbC)]).map Prod.fst
      = [3, 2, 1] := by
    norm_num [rank_veterans, List.mergeSort, List.splitInTwo, List.merge,
      lbLe, age_days, vLbA, vLbB, vLbC]
  exact ⟨h, by rw [h]; decide⟩

/-- C5, amended: the ranking sorts by descending xp and breaks xp ties by
descending plant age, with fully tied entries kept in map (insertion) order
by stability; on the spec example with equal plant ages it does yield
[B, C, A]; in general the ranking is a permutation of the map, is pairwise
sorted for the comparator, and is stable (any comparator-respecting pair of
entries of the map stays in that relative order). -/
theorem leaderboard_rank_spec :
    ((rank_veterans 86400 [(1, vLbA), (2, vLbB), (3, vLbC2)]).map Prod.fst = [2, 3, 1]) ∧
    (∀ (now : ℚ) (m : VetMap), (rank_veterans now m).Perm m) ∧
    (∀ (now : ℚ) (m : VetMap),
      (rank_veterans now m).Pairwise (fun a b => lbLe now a b = true)) ∧
    (∀ (now : ℚ) (m : VetMap) (a b : Nat × VeteranData),
      lbLe now a b = true → List.Sublist [a, b] m →
        List.Sublist [a, b] (rank_veterans now m)) := by
  refine ⟨?_, ?_, ?_, ?_⟩
  · norm_num [rank_veterans, List.mergeSort, List.splitInTwo, List.merge,
      lbLe, age_days, vLbA, vLbB, vLbC2]
  · intro now m
    exact List.mergeSort_perm m (lbLe now)
  · intro now m
    exact List.sorted_mergeSort (lbLe_trans now) (lbLe_total now) m
  · intro now m a b hab hsub
    exact List.pair_sublist_mergeSort (lbLe_trans now) (lbLe_total now) hab hsub

/-- Witness for `leaderboard_rank_spec`: stability applied to the concrete
pair B, C with equal xp and equal age inside the example map. -/
theorem leaderboard_rank_spec_witness :
    List.Sublist [(2, vLbB), (3, vLbC2)]
      (rank_veterans 86400 [(1, vLbA), (2, vLbB), (3, vLbC2)]) :=
  leaderboard_rank_spec.2.2.2 86400 [(1, vLbA), (2, vLbB), (3, vLbC2)]
    (2, vLbB) (3, vLbC2)
    (by norm_num [lbLe, age_days, vLbB, vLbC2, vLbA])
    (by decide)

/-- JSON values, as produced by `json.load`.  Numbers keep the int/float
distinction Python makes; a date-valued string is embedded as `jdate` with
its day number, matching the day-number embedding used for date fields. -/
inductive JValue where
  | jnull
  | jbool (b : Bool)
  | jint (n : Int)
  | jfloat (q : ℚ)
  | jstr (s : String)
  | jdate (d : Int)
  | jarr (xs : List JValue)
  | jobj (fields : List (String × JValue))

/-- Dict lookup on a decoded JSON object. -/
def jlookup (key : String) : List (String × JValue) → Option JValue
  | [] => none
  | p :: rest => if p.1 = key then some p.2 else jlookup key rest

/-- `data.get(key, default)` read as an int.  A present field of the wrong
JSON type is read as the default here; no modelled behaviour distinguishes
that case. -/
def jgetInt (fields : List (String × JValue)) (key : String) (dflt : Int) : Int :=
  match jlookup key fields with
  | some (.jint n) => n
  | _ => dflt

/-- `data.get(key, default)` read as a float (Python accepts ints there). -/
def jgetRat (fields : List (String × JValue)) (key : String) (dflt : ℚ) : ℚ :=
  match jlookup key fields with
  | some (.jfloat q) => q
  | some (.jint n) => (n : ℚ)
  | _ => dflt

/-- `data.get(key, default)` read as a date string. -/
def jgetDate (fields : List (String × JValue)) (key : String) (dflt : Int) : Int :=
  match jlookup key fields with
  | some (.jdate d) => d
  | _ => dflt

/-- `data.get(key, "")` read as a date string with the empty-string
sentinel. -/
def jgetOptDate (fields : List (String × JValue)) (key : String)
    (dflt : Option Int) : Option Int :=
  match jlookup key fields with
  | some (.jdate d) => some d
  | _ => dflt

/-- `VeteranData.__init__` on a decoded per-user JSON mapping: each field is
`data.get(...)` with the documented default (`now` for `plant_start`, the
configured maximum for `water_level`, today for the send-limit marker). -/
def VeteranData.ofJson (cfg : BotConfig) (now : ℚ) (today : Int)
    (fields : List (String × JValue)) : VeteranData where
  coins := jgetInt fields "coins" 0
  xp := jgetInt fields "xp" 0
  plant_start := jgetRat fields "plant_start" now
  water_level := jgetRat fields "water_level" (cfg.plant_max_water : ℚ)
  last_message_time := jgetRat fields "last_message_time" 0
  coins_sent_today := jgetInt fields "coins_sent_today" 0
  last_coins_reset := jgetDate fields "last_coins_reset" today
  last_daily_claim := jgetOptDate fields "last_daily_claim" none
  daily_streak := jgetInt fields "daily_streak" 0
  last_lb_refresh := jgetOptDate fields "last_lb_refresh" none
  messages_today := jgetInt fields "messages_today" 0
  last_message_day_local := jgetOptDate fields "last_message_day_local" none

/-- Whether a JSON value is a mapping. -/
def isJObj : JValue → Bool
  | .jobj _ => true
  | _ => false

/-- The fields of a JSON mapping (irrelevant default otherwise). -/
def jObjFields : JValue → List (String × JValue)
  | .jobj fs => fs
  | _ => []

/-- One decimal digit, for the embedding of Python `int()`. -/
def pyDigit (c : Char) : Option Nat :=
  if c = '0' then some 0
  else if c = '1' then some 1
  else if c = '2' then some 2
  else if c = '3' then some 3
  else if c = '4' then some 4
  else if c = '5' then some 5
  else if c = '6' then some 6
  else if c = '7' then some 7
  else if c = '8' then some 8
  else if c = '9' then some 9
  else none

/-- Digit-sequence value, most significant first. -/
def pyDigitsAux : List Char → Nat → Option Nat
  | [], acc => some acc
  | c :: rest, acc =>
    match pyDigit c with
    | none => none
    | some d => pyDigitsAux rest (acc * 10 + d)

/-- A non-empty digit sequence, else `none`. -/
def pyDigits : List Char → Option Nat
  | [] => none
  | cs => pyDigitsAux cs 0

/-- Python `int(s)`: an optional sign and digits give the value, everything
else raises `ValueError` (`none` here; exotic accepted forms such as inner
underscores or surrounding whitespace are not modelled, no stored dict key
uses them). -/
def pyInt (s : String) : Option Int :=
  match s.data with
  | '-' :: rest => (pyDigits rest).map fun n => -(n : Int)
  | '+' :: rest => (pyDigits rest).map fun n => (n : Int)
  | cs => (pyDigits cs).map fun n => (n : Int)

/-- The data-loading loop of `VeteranBot.__init__`: for each stored entry,
`int(uid_str)` failing with `ValueError` skips the entry (`continue`), but
only `ValueError` is caught — a value that is not a mapping makes
`VeteranData.__init__` raise `AttributeError` on `data.get`, which aborts
the whole load (`Except.error`). -/
def loadVeterans (cfg : BotConfig) (now : ℚ) (today : Int) :
    List (String × JValue) → Except Unit (List (Int × VeteranData))
  | [] => .ok []
  | (k, val) :: rest =>
    match pyInt k with
    | none => loadVeterans cfg now today rest
    | some uid =>
      match val with
      | .jobj fields =>
        match loadVeterans cfg now today rest with
        | .ok tail => .ok ((uid, VeteranData.ofJson cfg now today fields) :: tail)
        | .error e => .error e
      | _ => .error ()

/-- `load_json(DATA_FILE, {})` followed by the loading loop: a missing or
unparsable file falls back to the empty dict (`none` here); a parsed file
whose top level is not a mapping makes `data.items()` raise. -/
def load_store (cfg : BotConfig) (now : ℚ) (today : Int) (file : Option JValue) :
    Except Unit (List (Int × VeteranData)) :=
  match file with
  | none => loadVeterans cfg now today []
  | some (.jobj entries) => loadVeterans cfg now today entries
  | some _ => .error ()

/-- C9, counterexample: a malformed stored value is not skipped — one
well-formed entry plus one entry whose value is the string "oops" aborts
the whole load instead of loading the well-formed entry. -/
theorem load_aborts_on_malformed_value :
    load_store defaultConfig 0 0
      (some (.jobj [("1", .jobj []), ("2", .jstr "oops")])) = .error () ∧
    load_store defaultConfig 0 0 (some (.jobj [("1", .jobj [])])) =
      .ok [(1, VeteranData.ofJson defaultConfig 0 0 [])] := by
  have h1 : pyInt "1" = some 1 := by decide
  have h2 : pyInt "2" = some 2 := by decide
  constructor
  · show loadVeterans defaultConfig 0 0 [("1", .jobj []), ("2", .jstr "oops")] = .error ()
    rw [loadVeterans, h1, loadVeterans, h2]
  · show loadVeterans defaultConfig 0 0 [("1", .jobj [])] =
      .ok [(1, VeteranData.ofJson defaultConfig 0 0 [])]
    rw [loadVeterans, h1]
    rfl

/-- C9, amended: a missing or unparsable store yields the empty participant
set, and when every stored value is a mapping the load never aborts: the
entries with non-integer keys are skipped and every other entry is loaded,
in order.  (An entry whose value is not a mapping still aborts the whole
load, because only `ValueError` is caught.) -/
theorem load_skips_bad_keys (cfg : BotConfig) (now : ℚ) (today : Int) :
    (load_store cfg now today none = .ok []) ∧
    (∀ entries : List (String × JValue),
      (∀ kv ∈ entries, isJObj kv.2 = true) →
      loadVeterans cfg now today entries =
        .ok (entries.filterMap fun kv =>
          (pyInt kv.1).map fun uid =>
            (uid, VeteranData.ofJson cfg now today (jObjFields kv.2)))) := by
  refine ⟨rfl, ?_⟩
  intro entries hobj
  induction entries with
  | nil => rfl
  | cons kv rest ih =>
    have hrest := ih fun q hq => hobj q (List.mem_cons_of_mem kv hq)
    have hkv : isJObj kv.2 = true := hobj kv (List.mem_cons_self kv rest)
    obtain ⟨k, val⟩ := kv
    cases val
    case jobj fields =>
      show loadVeterans cfg now today ((k, .jobj fields) :: rest) = _
      rw [loadVeterans]
      cases htoi : pyInt k with
      | none =>
        simp only [List.filterMap_cons, htoi, Option.map_none]
        exact hrest
      | some uid =>
        simp only [List.filterMap_cons, htoi, Option.map_some, hrest, jObjFields]
        rfl
    all_goals simp [isJObj] at hkv

/-- Witness for `load_skips_bad_keys`: two well-formed entries around one
non-integer key load in order, skipping the bad key. -/
theorem load_skips_bad_keys_witness :
    loadVeterans defaultConfig 0 0
      [("7", .jobj []), ("zzz", .jobj []), ("8", .jobj [("coins", .jint 3)])] =
      .ok ([("7", JValue.jobj []), ("zzz", .jobj []),
            ("8", .jobj [("coins", .jint 3)])].filterMap fun kv =>
        (pyInt kv.1).map fun uid =>
          (uid, VeteranData.ofJson defaultConfig 0 0 (jObjFields kv.2))) :=
  (load_skips_bad_keys defaultConfig 0 0).2
    [("7", .jobj []), ("zzz", .jobj []), ("8", .jobj [("coins", .jint 3)])]
    (by decide)
